import Mathlib

set_option maxRecDepth 100000

/-!
Verification of the `worktree-io/runner` core: identity grammar
(`IssueRef` parsing), path derivation, default-branch detection and the
`Workspace::open_or_create` lifecycle, shallowly embedded from the Rust
sources (`src/issue/…`, `src/git/…`, `src/workspace.rs`).

Strings are modelled by Lean `String` (a list of characters); Rust string
helpers (`split_once`, `strip_prefix`, `trim`, `lines`, `starts_with`) are
re-implemented below on the character-list representation.  External
subprocess calls are modelled by explicit oracles; the filesystem by a set
of paths.
-/

namespace Runner

/-- Equality on `Except` results is decidable when it is on both sides. -/
instance {ε α : Type} [DecidableEq ε] [DecidableEq α] : DecidableEq (Except ε α) := fun a b =>
  match a, b with
  | Except.ok x, Except.ok y =>
    if h : x = y then Decidable.isTrue (by rw [h])
    else Decidable.isFalse (by intro hh; cases hh; exact h rfl)
  | Except.error x, Except.error y =>
    if h : x = y then Decidable.isTrue (by rw [h])
    else Decidable.isFalse (by intro hh; cases hh; exact h rfl)
  | Except.ok _, Except.error _ => Decidable.isFalse (by intro hh; cases hh)
  | Except.error _, Except.ok _ => Decidable.isFalse (by intro hh; cases hh)

/-! ## Rust string helpers -/

/-- Rust `str::split_once(c)` on the character list: split at the first
occurrence of `c`, returning the parts before and after it. -/
def splitOnceL (c : Char) : List Char → Option (List Char × List Char)
  | [] => none
  | x :: xs =>
    if x = c then some ([], xs)
    else
      match splitOnceL c xs with
      | none => none
      | some (a, b) => some (x :: a, b)

/-- Rust `str::split_once` lifted to `String`. -/
def splitOnceStr (c : Char) (s : String) : Option (String × String) :=
  match splitOnceL c s.data with
  | none => none
  | some (a, b) => some (String.mk a, String.mk b)

/-- Split a character list at every occurrence of `c` (like Rust `split(c)`:
`n` separators yield `n+1` parts, possibly empty). -/
def splitChar (c : Char) : List Char → List (List Char)
  | [] => [[]]
  | x :: xs =>
    match splitChar c xs with
    | [] => [[]]
    | h :: t => if x = c then [] :: h :: t else (x :: h) :: t

/-- Rust `str::starts_with` (on the underlying characters). -/
def strStartsWith (s p : String) : Bool :=
  p.data.isPrefixOf s.data

/-- Rust `str::strip_prefix`. -/
def stripPrefixStr (p s : String) : Option String :=
  if p.data.isPrefixOf s.data then some (String.mk (s.data.drop p.data.length))
  else none

/-- The Unicode `White_Space` property, as used by Rust
`char::is_whitespace`. -/
def isRustWhitespace (c : Char) : Bool :=
  let n := c.toNat
  (9 ≤ n && n ≤ 13) || n = 32 || n = 0x85 || n = 0xA0 || n = 0x1680 ||
  (0x2000 ≤ n && n ≤ 0x200A) || n = 0x2028 || n = 0x2029 || n = 0x202F ||
  n = 0x205F || n = 0x3000

/-- Rust `str::trim` on the character list: drop whitespace from the front,
then from the back. -/
def trimChars (cs : List Char) : List Char :=
  (cs.dropWhile isRustWhitespace).rdropWhile isRustWhitespace

/-- Rust `str::trim`. -/
def rustTrim (s : String) : String :=
  String.mk (trimChars s.data)

/-- Rust `str::lines`: split on `'\n'`, drop a final empty piece produced by
a trailing newline, and strip one trailing `'\r'` from each line. -/
def rustLines (s : String) : List String :=
  let parts := splitChar '\n' s.data
  let parts := if parts.getLast? = some [] then parts.dropLast else parts
  parts.map fun l => String.mk (if l.getLast? = some '\r' then l.dropLast else l)

/-- Rust `u64::from_str`: an optional leading `'+'`, then one or more ASCII
digits, with the value required to fit in 64 bits. -/
def parseU64 (s : String) : Option Nat :=
  let cs := match s.data with
    | '+' :: rest => rest
    | cs => cs
  if cs.isEmpty then none
  else if cs.all Char.isDigit then
    let v := cs.foldl (fun a c => a * 10 + (c.toNat - 48)) 0
    if v < 2 ^ 64 then some v else none
  else none

/-! ## UUID validation (`uuid::Uuid::parse_str`)

The `uuid` crate accepts four textual formats: simple (32 hex digits),
hyphenated (8-4-4-4-12 hex groups), braced hyphenated, and
`urn:uuid:`-prefixed hyphenated — all case-insensitive. -/

/-- ASCII hex digit. -/
def isHexDigitChar (c : Char) : Bool :=
  c.isDigit || ('a' ≤ c && c ≤ 'f') || ('A' ≤ c && c ≤ 'F')

/-- The hyphenated 8-4-4-4-12 layout: hyphens at positions 8, 13, 18, 23,
hex digits everywhere else (length 36 assumed checked by the caller). -/
def hyphenatedGroupsOk (cs : List Char) : Bool :=
  cs.enum.all fun ic =>
    if ic.1 = 8 || ic.1 = 13 || ic.1 = 18 || ic.1 = 23 then ic.2 = '-'
    else isHexDigitChar ic.2

/-- Model of `uuid::Uuid::parse_str`: true iff the string is a UUID in one of the
four supported formats. -/
def uuidParseOk (s : String) : Bool :=
  let cs := s.data
  if cs.length = 32 then cs.all isHexDigitChar
  else if cs.length = 36 then hyphenatedGroupsOk cs
  else if cs.length = 38 then
    match cs with
    | '{' :: rest => rest.getLast? = some '}' && hyphenatedGroupsOk rest.dropLast
    | _ => false
  else if cs.length = 45 then
    ("urn:uuid:".data.isPrefixOf cs) && hyphenatedGroupsOk (cs.drop 9)
  else false

/-- The spec's words for a valid Linear id: a canonical UUID of the
hyphenated 8-4-4-4-12 hex-group form only, case-insensitive.  Stated from
the spec for comparison with `uuidParseOk` (the code's acceptance set). -/
def specHyphenatedUuid (s : String) : Bool :=
  s.data.length = 36 && hyphenatedGroupsOk s.data

/-! ## Data model (`src/issue/mod.rs`) -/

/-- Options extracted from a `worktree://` deep link. -/
structure DeepLinkOptions where
  editor : Option String
deriving DecidableEq, Repr

/-- A reference to an issue that identifies a workspace. -/
inductive IssueRef where
  | GitHub (owner repo : String) (number : Nat)
  | Linear (owner repo : String) (id : String)
deriving DecidableEq, Repr

namespace IssueRef

/-- The repository owner (both variants carry one). -/
def owner : IssueRef → String
  | .GitHub o _ _ => o
  | .Linear o _ _ => o

/-- The repository name (both variants carry one). -/
def repo : IssueRef → String
  | .GitHub _ r _ => r
  | .Linear _ r _ => r

end IssueRef

/-- Little-endian decimal digits of `n`, with enough fuel (`n` itself). -/
def natDigitsRev : Nat → Nat → List Nat
  | 0, _ => []
  | fuel + 1, n => if n = 0 then [] else n % 10 :: natDigitsRev fuel (n / 10)

/-- Decimal rendering of an unsigned integer, as Rust `format!("{number}")`
prints a `u64`: most-significant digit first. -/
def natDecimal (n : Nat) : String :=
  if n = 0 then "0"
  else String.mk (((natDigitsRev n n).map Nat.digitChar).reverse)

/-- Directory name used inside the bare clone for this worktree
(`workspace_dir_name`). -/
def IssueRef.workspace_dir_name : IssueRef → String
  | .GitHub _ _ number => "issue-" ++ natDecimal number
  | .Linear _ _ id => "linear-" ++ id

/-- Git branch name for this issue worktree. -/
def IssueRef.branch_name (i : IssueRef) : String :=
  i.workspace_dir_name

/-- HTTPS clone URL for the repository. -/
def IssueRef.clone_url (i : IssueRef) : String :=
  "https://github.com/" ++ i.owner ++ "/" ++ i.repo ++ ".git"

/-! ## Filesystem paths

Rust `PathBuf` values are modelled by a flag for absoluteness plus the list
of normal components; `Path::join` pushes the components of its argument
(splitting on `'/'`, dropping empty and `"."` components as `Components`
normalisation does) and replaces the whole path when joined with an
absolute path. -/

/-- A filesystem path: absolute flag plus components. -/
structure FsPath where
  abs : Bool
  comps : List String
deriving DecidableEq, Repr

/-- Components contributed by one `join` argument. -/
def pathComponents (s : String) : List String :=
  ((splitChar '/' s.data).map String.mk).filter fun t => !(t = "" || t = ".")

/-- Model of `PathBuf::join`. -/
def FsPath.join (p : FsPath) (s : String) : FsPath :=
  if s.data.head? = some '/' then ⟨true, pathComponents s⟩
  else ⟨p.abs, p.comps ++ pathComponents s⟩

/-- Model of `Path::parent` (drop the last component). -/
def FsPath.parent (p : FsPath) : FsPath :=
  ⟨p.abs, p.comps.dropLast⟩

/-- Path to the bare clone: `<home>/worktrees/github/{owner}/{repo}`
(`IssueRef::bare_clone_path`, with the home directory as a parameter). -/
def bare_clone_path (home : FsPath) (i : IssueRef) : FsPath :=
  (((home.join "worktrees").join "github").join i.owner).join i.repo

/-- Path to the worktree checkout:
`<home>/worktrees/github/{owner}/{repo}/<dir-name>`
(`IssueRef::temp_path`). -/
def temp_path (home : FsPath) (i : IssueRef) : FsPath :=
  (bare_clone_path home i).join i.workspace_dir_name

/-! ## URL model (the `url` crate, restricted)

`Url::parse` is external to the repository; the model below covers the
hierarchical `scheme://host/path?query` shapes the program feeds it:
scheme and host are lower-cased, the path is kept as its list of raw
segments with dot-segments normalised (`None` when the URL has no
slash-initial path, as `Url::path_segments` returns `None` then), and the
query is the ordered list of percent-decoded key/value pairs as produced by
`Url::query_pairs` (`form_urlencoded`: split on `'&'`, empty sequences
skipped, a pair without `'='` gets an empty value, `'+'` decodes to a
space). -/

/-- A parsed URL: what the program consumes of `url::Url`. -/
structure Url where
  scheme : String
  host : String
  /-- `Url::path_segments`: `none` when the path does not start with a
  slash; otherwise the segments (possibly empty strings). -/
  path : Option (List String)
  /-- `Url::query_pairs`, already percent-decoded, in order. -/
  query : List (String × String)
deriving DecidableEq, Repr

/-- Hex digit value. -/
def hexVal (c : Char) : Option Nat :=
  if c.isDigit then some (c.toNat - 48)
  else if 'a' ≤ c && c ≤ 'f' then some (c.toNat - 87)
  else if 'A' ≤ c && c ≤ 'F' then some (c.toNat - 55)
  else none

/-- Percent-decoding; when `plus` is set, `'+'` decodes to a space
(query-string rules). -/
def percentDecode (plus : Bool) : List Char → List Char
  | '%' :: a :: b :: rest =>
    match hexVal a, hexVal b with
    | some x, some y => Char.ofNat (16 * x + y) :: percentDecode plus rest
    | _, _ => '%' :: percentDecode plus (a :: b :: rest)
  | '+' :: rest => (if plus then ' ' else '+') :: percentDecode plus rest
  | c :: rest => c :: percentDecode plus rest
  | [] => []

/-- Model of `form_urlencoded` parsing of a query string. -/
def parseQueryPairs (q : List Char) : List (String × String) :=
  (splitChar '&' q).filterMap fun part =>
    if part.isEmpty then none
    else
      match splitOnceL '=' part with
      | some (k, v) =>
        some (String.mk (percentDecode true k), String.mk (percentDecode true v))
      | none => some (String.mk (percentDecode true part), "")

/-- WHATWG dot-segment normalisation of a slash-initial path's segments:
`"."` is dropped, `".."` pops, either at the end leaves a trailing empty
segment. -/
def normSegsAux (acc : List String) : List String → List String
  | [] => acc
  | seg :: rest =>
    if seg = ".." then
      if rest.isEmpty then acc.dropLast ++ [""] else normSegsAux acc.dropLast rest
    else if seg = "." then
      if rest.isEmpty then acc ++ [""] else normSegsAux acc rest
    else normSegsAux (acc ++ [seg]) rest

/-- Allowed characters after the first of a URL scheme. -/
def isSchemeChar (c : Char) : Bool :=
  c.isAlphanum || c = '+' || c = '-' || c = '.'

/-- Schemes the WHATWG parser treats as special (their path is never
empty: an absent path reads as `"/"`). -/
def specialSchemes : List String := ["http", "https", "ws", "wss", "ftp", "file"]

/-- Take characters until one satisfying `stop`, returning both halves. -/
def spanUntil (stop : Char → Bool) (cs : List Char) : List Char × List Char :=
  (cs.takeWhile (fun c => !stop c), cs.dropWhile (fun c => !stop c))

/-- Model of `Url::parse`, restricted to `scheme://host[/path][?query][#fragment]`
inputs; anything else is a parse error (`none`). -/
def urlParse (s : String) : Option Url :=
  match splitOnceL ':' s.data with
  | none => none
  | some ([], _) => none
  | some (c0 :: schRest, rest) =>
    if !(c0.isAlpha && schRest.all isSchemeChar) then none
    else
      let scheme := String.mk ((c0 :: schRest).map Char.toLower)
      match rest with
      | '/' :: '/' :: rest2 =>
        let hostSplit := spanUntil (fun c => c = '/' || c = '?' || c = '#') rest2
        let host := String.mk (hostSplit.1.map Char.toLower)
        if scheme ∈ specialSchemes && hostSplit.1.isEmpty then none
        else
          let afterHost := hostSplit.2
          let pathSplit : Option (List Char) × List Char :=
            match afterHost with
            | '/' :: r =>
              let ps := spanUntil (fun c => c = '?' || c = '#') r
              (some ps.1, ps.2)
            | r => (none, r)
          let queryCs : Option (List Char) :=
            match pathSplit.2 with
            | '?' :: r => some (spanUntil (fun c => c = '#') r).1
            | _ => none
          let path : Option (List String) :=
            match pathSplit.1 with
            | some p => some (normSegsAux [] ((splitChar '/' p).map String.mk))
            | none => if scheme ∈ specialSchemes then some [""] else none
          some ⟨scheme, host, path,
            match queryCs with
            | some q => parseQueryPairs q
            | none => []⟩
      | _ => none

/-! ## GitHub issue URL (`src/issue/parse/mod.rs`, `parse_github_url`) -/

/-- The error text for a malformed GitHub issue URL. -/
def githubUrlShapeError (s : String) : String :=
  "Expected GitHub issue URL like https://github.com/owner/repo/issues/42, got: " ++ s

/-- The part of `parse_github_url` after `Url::parse`: filter out empty
segments, require at least four with the third equal to `"issues"`, and
parse the fourth as a `u64`. -/
def parse_github_url_core (s : String) (u : Url) : Except String IssueRef :=
  match u.path with
  | none => Except.error "URL has no path"
  | some segs =>
    let segments := segs.filter fun t => !(t = "")
    if segments.length < 4 then Except.error (githubUrlShapeError s)
    else if !(segments.getD 2 "" = "issues") then Except.error (githubUrlShapeError s)
    else
      let seg3 := segments.getD 3 ""
      match parseU64 seg3 with
      | none => Except.error ("Invalid issue number in URL: " ++ seg3)
      | some n => Except.ok (IssueRef.GitHub (segments.getD 0 "") (segments.getD 1 "") n)

/-- Embedding of `parse_github_url`. -/
def parse_github_url (s : String) : Except String IssueRef :=
  match urlParse s with
  | none => Except.error ("Invalid URL: " ++ s)
  | some u => parse_github_url_core s u

/-! ## Shorthand forms (`src/issue/parse/shorthand.rs`) -/

/-- Embedding of `try_parse_shorthand`: `owner/repo@<uuid>` (split at the first `'@'`)
or `owner/repo#N` (split at the first `'#'`); `none` means "not this form"
and the caller falls through to its generic error. -/
def try_parse_shorthand (s : String) : Option (Except String IssueRef) :=
  match splitOnceStr '@' s with
  | some (repo_part, id) =>
    match splitOnceStr '/' repo_part with
    | none => none
    | some (owner, repo) =>
      if owner = "" || repo = "" then
        some (Except.error ("Invalid shorthand format: " ++ s))
      else if !uuidParseOk id then
        some (Except.error ("Invalid Linear issue UUID in shorthand: " ++ id))
      else some (Except.ok (IssueRef.Linear owner repo id))
  | none =>
    match splitOnceStr '#' s with
    | none => none
    | some (repo_part, num_str) =>
      match splitOnceStr '/' repo_part with
      | none => none
      | some (owner, repo) =>
        if owner = "" || repo = "" then
          some (Except.error ("Invalid shorthand format: " ++ s))
        else
          match parseU64 num_str with
          | none => some (Except.error ("Invalid issue number in shorthand: " ++ num_str))
          | some n => some (Except.ok (IssueRef.GitHub owner repo n))

/-- The spec's reading of the Linear shorthand, for comparison: split at
the LAST `'@'` (the code splits at the first).  Stated from the spec's
words; identical to `try_parse_shorthand`'s Linear branch otherwise. -/
def shorthandSpecLastAt (s : String) : Option (Except String IssueRef) :=
  match splitOnceL '@' s.data.reverse with
  | none => none
  | some (idRev, repoRev) =>
    let repo_part := String.mk repoRev.reverse
    let id := String.mk idRev.reverse
    match splitOnceStr '/' repo_part with
    | none => none
    | some (owner, repo) =>
      if owner = "" || repo = "" then
        some (Except.error ("Invalid shorthand format: " ++ s))
      else if !uuidParseOk id then
        some (Except.error ("Invalid Linear issue UUID in shorthand: " ++ id))
      else some (Except.ok (IssueRef.Linear owner repo id))

/-! ## Deep links (`src/issue/parse/worktree_url.rs`) -/

/-- Accumulator for the query-pair loop of `parse_worktree_url`. -/
structure WtState where
  owner : Option String
  repo : Option String
  issue : Option Nat
  linearId : Option String
  urlParam : Option String
  editor : Option String
deriving DecidableEq, Repr

/-- The loop's initial state: nothing seen. -/
def initWtState : WtState := ⟨none, none, none, none, none, none⟩

/-- The `for (key, val) in url.query_pairs()` loop: later occurrences of a
key overwrite earlier ones; a malformed `issue` or `linear_id` value aborts
immediately; unknown keys are ignored. -/
def processPairs : List (String × String) → WtState → Except String WtState
  | [], st => Except.ok st
  | (k, v) :: rest, st =>
    if k = "owner" then processPairs rest { st with owner := some v }
    else if k = "repo" then processPairs rest { st with repo := some v }
    else if k = "issue" then
      match parseU64 v with
      | none => Except.error ("Invalid issue number: " ++ v)
      | some n => processPairs rest { st with issue := some n }
    else if k = "linear_id" then
      if uuidParseOk v then processPairs rest { st with linearId := some v }
      else Except.error ("Invalid Linear issue UUID: " ++ v)
    else if k = "url" then processPairs rest { st with urlParam := some v }
    else if k = "editor" then processPairs rest { st with editor := some v }
    else processPairs rest st

/-- The tail of `parse_worktree_url` after the loop: `url` wins, then
`linear_id`, then `issue`; missing required fields are named errors. -/
def resolveWtState (st : WtState) : Except String (IssueRef × DeepLinkOptions) :=
  let opts : DeepLinkOptions := ⟨st.editor⟩
  match st.urlParam with
  | some u =>
    match parse_github_url u with
    | Except.error e => Except.error e
    | Except.ok i => Except.ok (i, opts)
  | none =>
    match st.linearId with
    | some id =>
      match st.owner with
      | none => Except.error "Missing 'owner' query param"
      | some o =>
        match st.repo with
        | none => Except.error "Missing 'repo' query param"
        | some r => Except.ok (IssueRef.Linear o r id, opts)
    | none =>
      match st.owner with
      | none => Except.error "Missing 'owner' query param"
      | some o =>
        match st.repo with
        | none => Except.error "Missing 'repo' query param"
        | some r =>
          match st.issue with
          | none => Except.error "Missing 'issue' query param"
          | some n => Except.ok (IssueRef.GitHub o r n, opts)

/-- Embedding of `parse_worktree_url` from the query pairs on. -/
def parse_worktree_pairs (ps : List (String × String)) :
    Except String (IssueRef × DeepLinkOptions) :=
  match processPairs ps initWtState with
  | Except.error e => Except.error e
  | Except.ok st => resolveWtState st

/-- Embedding of `parse_worktree_url`. -/
def parse_worktree_url (s : String) : Except String (IssueRef × DeepLinkOptions) :=
  match urlParse s with
  | none => Except.error ("Invalid URL: " ++ s)
  | some u => parse_worktree_pairs u.query

/-! ## Top-level parse (`src/issue/parse/mod.rs`) -/

/-- The generic "none of the four forms matched" error. -/
def genericFormatsError (s : String) : String :=
  "Could not parse issue reference: \"" ++ s ++ "\"\n" ++
  "Supported formats:\n" ++
  "- https://github.com/owner/repo/issues/42\n" ++
  "- worktree://open?owner=owner&repo=repo&issue=42\n" ++
  "- worktree://open?owner=owner&repo=repo&linear_id=<uuid>\n" ++
  "- owner/repo#42\n" ++
  "- owner/repo@<linear-uuid>"

/-- Embedding of `IssueRef::parse` after the initial `trim`. -/
def parseTrimmed (t : String) : Except String IssueRef :=
  if strStartsWith t "worktree://" then
    match parse_worktree_url t with
    | Except.error e => Except.error e
    | Except.ok (issue, _opts) => Except.ok issue
  else if strStartsWith t "https://github.com" || strStartsWith t "http://github.com" then
    parse_github_url t
  else
    match try_parse_shorthand t with
    | some r => r
    | none => Except.error (genericFormatsError t)

/-- Embedding of `IssueRef::parse`. -/
def parse (s : String) : Except String IssueRef :=
  parseTrimmed (rustTrim s)

/-- Embedding of `IssueRef::parse_with_options`. -/
def parse_with_options (s : String) : Except String (IssueRef × DeepLinkOptions) :=
  let t := rustTrim s
  if strStartsWith t "worktree://" then parse_worktree_url t
  else
    match parse t with
    | Except.error e => Except.error e
    | Except.ok i => Except.ok (i, ⟨none⟩)

/-! ## Remote operations (`src/git/branch.rs`, `src/git/clone.rs`,
`src/workspace.rs`)

A subprocess invocation either fails to run at all (`ioErr`, the
`.output()`/`.status()` `Err` case) or runs and reports a success flag and
its stdout.  The three git queries consulted by branch detection and the
branch-existence probe are modelled by an oracle record; clone, config,
fetch and worktree-add outcomes by booleans. -/

/-- Outcome of running one external command. -/
inductive CmdOut where
  | ioErr
  | run (success : Bool) (stdout : String)
deriving DecidableEq, Repr

/-- Oracle for the git queries: `git symbolic-ref refs/remotes/origin/HEAD`,
`git remote show origin`, and `git rev-parse --verify <ref>` keyed by the
full ref string. -/
structure GitEnv where
  symbolicRef : CmdOut
  remoteShow : CmdOut
  revParse : String → CmdOut

/-- One git invocation, for the operation trace. -/
inductive GitOp where
  | cloneBare
  | configFetchRefspec
  | fetchOrigin
  | symbolicRefHead
  | remoteShowOrigin
  | revParseVerify (ref : String)
  | worktreeAdd (dest : FsPath) (newBranch : Bool)
deriving DecidableEq, Repr

/-- Tier 2's line scan: the first trimmed line of `git remote show origin`
output starting with `"HEAD branch: "`, with that prefix stripped. -/
def headBranchOf (text : String) : Option String :=
  (rustLines text).findSome? fun line => stripPrefixStr "HEAD branch: " (rustTrim line)

/-- Tier 3 of `detect_default_branch`: probe the candidates in order and
return the first whose remote ref exists. -/
def probeCandidates (env : GitEnv) : List String → Except String String × List GitOp
  | [] => (Except.error "Could not detect default branch for the repository", [])
  | c :: rest =>
    let ref := "refs/remotes/origin/" ++ c
    match env.revParse ref with
    | CmdOut.ioErr => (Except.error "Failed to run `git rev-parse`", [GitOp.revParseVerify ref])
    | CmdOut.run ok _ =>
      if ok then (Except.ok c, [GitOp.revParseVerify ref])
      else
        let r := probeCandidates env rest
        (r.1, GitOp.revParseVerify ref :: r.2)

/-- Embedding of `detect_default_branch`, returning the result together with the trace
of git commands it ran. -/
def detect_default_branch (env : GitEnv) : Except String String × List GitOp :=
  match env.symbolicRef with
  | CmdOut.ioErr => (Except.error "Failed to run `git symbolic-ref`", [GitOp.symbolicRefHead])
  | CmdOut.run ok1 out1 =>
    let tier1 : Option String :=
      if ok1 then stripPrefixStr "refs/remotes/origin/" (rustTrim out1) else none
    match tier1 with
    | some branch => (Except.ok branch, [GitOp.symbolicRefHead])
    | none =>
      match env.remoteShow with
      | CmdOut.ioErr =>
        (Except.error "Failed to run `git remote show origin`",
          [GitOp.symbolicRefHead, GitOp.remoteShowOrigin])
      | CmdOut.run ok2 text =>
        let tier2 : Option String := if ok2 then headBranchOf text else none
        match tier2 with
        | some branch => (Except.ok branch, [GitOp.symbolicRefHead, GitOp.remoteShowOrigin])
        | none =>
          let r := probeCandidates env ["main", "master", "develop"]
          (r.1, GitOp.symbolicRefHead :: GitOp.remoteShowOrigin :: r.2)

/-- Embedding of `branch_exists_remote`: a plain boolean; a probe that fails to run
counts as "does not exist". -/
def branch_exists_remote (env : GitEnv) (branch : String) : Bool :=
  match env.revParse ("refs/remotes/origin/" ++ branch) with
  | CmdOut.ioErr => false
  | CmdOut.run ok _ => ok

/-! ## Workspace lifecycle (`src/workspace.rs`) -/

/-- The world `open_or_create` acts on: the set of existing paths plus the
outcomes of the external commands. -/
structure World where
  disk : List FsPath
  cloneOk : Bool
  configOk : Bool
  fetchOk : Bool
  git : GitEnv
  worktreeAddOk : Bool

/-- The result object: `Workspace { path, issue, created }`. -/
structure Workspace where
  path : FsPath
  issue : IssueRef
  created : Bool
deriving DecidableEq, Repr

/-- Embedding of `bare_clone(url, dest)`: create the parent directory, `git clone
--bare`, configure `remote.origin.fetch`, then `git fetch origin`; each
step's failure aborts.  A successful clone puts `dest` on disk. -/
def bare_clone (url : String) (dest : FsPath) (w : World) :
    Except String Unit × World × List GitOp :=
  let w0 : World := { w with disk := dest.parent :: w.disk }
  if !w0.cloneOk then
    (Except.error ("git clone --bare failed for " ++ url), w0, [GitOp.cloneBare])
  else
    let w1 : World := { w0 with disk := dest :: w0.disk }
    if !w1.configOk then
      (Except.error "Failed to set remote.origin.fetch", w1,
        [GitOp.cloneBare, GitOp.configFetchRefspec])
    else if !w1.fetchOk then
      (Except.error "git fetch origin failed after bare clone", w1,
        [GitOp.cloneBare, GitOp.configFetchRefspec, GitOp.fetchOrigin])
    else (Except.ok (), w1, [GitOp.cloneBare, GitOp.configFetchRefspec, GitOp.fetchOrigin])

/-- Embedding of `git_fetch(bare)`. -/
def git_fetch (w : World) : Except String Unit × World × List GitOp :=
  if w.fetchOk then (Except.ok (), w, [GitOp.fetchOrigin])
  else (Except.error "git fetch origin failed", w, [GitOp.fetchOrigin])

/-- Embedding of `create_worktree`: with an existing remote branch, add a worktree
tracking `origin/{branch}`; otherwise create a new branch from
`origin/{base_branch}`.  Success puts `dest` on disk. -/
def create_worktree (dest : FsPath) (branch : String) (_base_branch : String)
    (branch_exists : Bool) (w : World) : Except String Unit × World × List GitOp :=
  let ops := [GitOp.worktreeAdd dest (!branch_exists)]
  if w.worktreeAddOk then (Except.ok (), { w with disk := dest :: w.disk }, ops)
  else (Except.error ("git worktree add failed for branch " ++ branch), w, ops)

/-- Embedding of `Workspace::open_or_create`: reuse the worktree if its path exists;
otherwise clone or fetch the bare mirror, detect the default branch, check
whether the issue branch exists on the remote, and create the worktree. -/
def open_or_create (home : FsPath) (issue : IssueRef) (w : World) :
    Except String Workspace × World × List GitOp :=
  let worktree_path := temp_path home issue
  let bare_path := bare_clone_path home issue
  if worktree_path ∈ w.disk then
    (Except.ok ⟨worktree_path, issue, false⟩, w, [])
  else
    let step :=
      if bare_path ∈ w.disk then git_fetch w
      else bare_clone issue.clone_url bare_path w
    match step with
    | (Except.error e, w1, ops1) => (Except.error e, w1, ops1)
    | (Except.ok _, w1, ops1) =>
      match detect_default_branch w1.git with
      | (Except.error e, ops2) => (Except.error e, w1, ops1 ++ ops2)
      | (Except.ok base_branch, ops2) =>
        let branch := issue.branch_name
        let branch_exists := branch_exists_remote w1.git branch
        let ops3 := [GitOp.revParseVerify ("refs/remotes/origin/" ++ branch)]
        match create_worktree worktree_path branch base_branch branch_exists w1 with
        | (Except.ok _, w2, ops4) =>
          (Except.ok ⟨worktree_path, issue, true⟩, w2, ops1 ++ ops2 ++ ops3 ++ ops4)
        | (Except.error e, w2, ops4) =>
          (Except.error e, w2, ops1 ++ ops2 ++ ops3 ++ ops4)

/-! ## Auxiliary predicates used by the theorems -/

/-- Inverse of `Nat.digitChar` on decimal digits. -/
def charToDigit (c : Char) : Nat := c.toNat - 48

/-- A string usable as a single path component: non-empty, not `"."`, and
free of `'/'`. -/
def goodName (s : String) : Prop := s ≠ "" ∧ s ≠ "." ∧ '/' ∉ s.data

/-- Identities whose owner and repo are single path components and whose
Linear id is slash-free. -/
def goodIssue : IssueRef → Prop
  | .GitHub o r _ => goodName o ∧ goodName r
  | .Linear o r id => goodName o ∧ goodName r ∧ '/' ∉ id.data

/-- Tier 1 of branch detection produced no answer: the symbolic-ref
command ran but failed, or succeeded with output that does not carry the
`refs/remotes/origin/` prefix. -/
def tier1NoAnswer (env : GitEnv) : Prop :=
  (∃ out, env.symbolicRef = CmdOut.run false out) ∨
  (∃ out, env.symbolicRef = CmdOut.run true out ∧
    stripPrefixStr "refs/remotes/origin/" (rustTrim out) = none)

/-- Tier 2 of branch detection produced no answer: `git remote show
origin` ran but failed, or succeeded with no "HEAD branch: " line. -/
def tier2NoAnswer (env : GitEnv) : Prop :=
  (∃ text, env.remoteShow = CmdOut.run false text) ∨
  (∃ text, env.remoteShow = CmdOut.run true text ∧ headBranchOf text = none)

/-- The value of the LAST occurrence of key `k` among the query pairs
(later occurrences of a key overwrite earlier ones in the loop). -/
def lastVal (k : String) : List (String × String) → Option String
  | [] => none
  | p :: ps =>
    match lastVal k ps with
    | some v => some v
    | none => if p.1 = k then some p.2 else none

/-- Prefer the first option when present. -/
def overlayOpt {α : Type} (new fallback : Option α) : Option α :=
  match new with
  | some v => some v
  | none => fallback

/-- Query pairs whose `issue` values all parse as `u64` and whose
`linear_id` values are all valid UUIDs — exactly the inputs on which the
pair loop cannot bail early. -/
def wellFormedPairs (ps : List (String × String)) : Prop :=
  ∀ p ∈ ps, (p.1 = "issue" → (parseU64 p.2).isSome) ∧
    (p.1 = "linear_id" → uuidParseOk p.2 = true)

instance (ps : List (String × String)) : Decidable (wellFormedPairs ps) := by
  unfold wellFormedPairs; infer_instance

instance : DecidablePred goodName := fun s => by unfold goodName; infer_instance

instance : DecidablePred goodIssue := fun i => by
  cases i <;> (unfold goodIssue; infer_instance)

/-! ## Theorems -/

/-- Dropping leading whitespace then trailing whitespace is idempotent. -/
theorem trimChars_idem (cs : List Char) : trimChars (trimChars cs) = trimChars cs := by
  unfold trimChars
  set p := isRustWhitespace with hp
  set x := cs.dropWhile p with hxdef
  set y := x.rdropWhile p with hydef
  have hpre : y <+: x := List.rdropWhile_prefix p x
  have h1 : y.dropWhile p = y := by
    rw [List.dropWhile_eq_self_iff]
    intro hl
    obtain ⟨t, ht⟩ := hpre
    have h0 : 0 < x.length := by
      rw [← ht, List.length_append]
      omega
    have hx0 : ¬ p (x.get ⟨0, h0⟩) := List.dropWhile_get_zero_not p cs h0
    have hget : x.get ⟨0, h0⟩ = y.get ⟨0, hl⟩ := by
      simp only [← ht, List.get_eq_getElem]
      exact List.getElem_append_left hl
    rwa [hget] at hx0
  rw [h1, hydef]
  exact List.rdropWhile_idempotent p x

/-- Trimming is idempotent (Rust `str::trim` removes all leading and
trailing whitespace in one pass). -/
theorem rustTrim_idem (s : String) : rustTrim (rustTrim s) = rustTrim s :=
  congrArg String.mk (trimChars_idem s.data)

/-- Claim C10: for every input string `s`, `parse s = parse (trim s)` and
`parse_with_options s = parse_with_options (trim s)`: surrounding
whitespace changes neither the matched form, the resulting `IssueRef`, nor
the error. -/
theorem parse_trim_invariant (s : String) :
    parse (rustTrim s) = parse s ∧
    parse_with_options (rustTrim s) = parse_with_options s := by
  constructor
  · show parseTrimmed (rustTrim (rustTrim s)) = parseTrimmed (rustTrim s)
    rw [rustTrim_idem]
  · show parse_with_options (rustTrim s) = parse_with_options s
    unfold parse_with_options
    rw [rustTrim_idem]

/-! ### Decimal rendering -/

/-- With enough fuel, `natDigitsRev` computes `Nat.digits 10`. -/
theorem natDigitsRev_eq_digits : ∀ fuel n, n ≤ fuel → natDigitsRev fuel n = Nat.digits 10 n := by
  intro fuel
  induction fuel with
  | zero =>
    intro n hn
    have : n = 0 := Nat.le_zero.mp hn
    subst this
    rw [Nat.digits_zero]
    rfl
  | succ f ih =>
    intro n hn
    by_cases h0 : n = 0
    · subst h0
      rw [Nat.digits_zero]
      rfl
    · have hpos : 0 < n := Nat.pos_of_ne_zero h0
      have hdiv : n / 10 ≤ f := by
        have : n / 10 < n := Nat.div_lt_self hpos (by norm_num)
        omega
      rw [natDigitsRev, if_neg h0, ih _ hdiv, Nat.digits_def' (by norm_num : (1:ℕ) < 10) hpos]

/-- The map `charToDigit` inverts `Nat.digitChar` on decimal digits. -/
theorem charToDigit_digitChar : ∀ d < 10, charToDigit (Nat.digitChar d) = d := by decide

/-- Decimal digit characters are never `'/'`. -/
theorem digitChar_ne_slash : ∀ d < 10, Nat.digitChar d ≠ '/' := by decide

/-- The map `Nat.digitChar` is injective on lists of decimal digits. -/
theorem map_digitChar_inj {ds es : List Nat} (hds : ∀ d ∈ ds, d < 10)
    (hes : ∀ e ∈ es, e < 10) (h : ds.map Nat.digitChar = es.map Nat.digitChar) :
    ds = es := by
  have h2 := congrArg (List.map charToDigit) h
  simp only [List.map_map, Function.comp_def] at h2
  have e1 : ds.map (fun d => charToDigit (Nat.digitChar d)) = ds.map (fun d => d) :=
    List.map_congr_left fun d hd => charToDigit_digitChar d (hds d hd)
  have e2 : es.map (fun d => charToDigit (Nat.digitChar d)) = es.map (fun d => d) :=
    List.map_congr_left fun e he => charToDigit_digitChar e (hes e he)
  rw [e1, e2] at h2
  simpa using h2

/-- The character data of `natDecimal n` for non-zero `n`. -/
theorem natDecimal_data {n : Nat} (hn : n ≠ 0) :
    (natDecimal n).data = ((Nat.digits 10 n).map Nat.digitChar).reverse := by
  unfold natDecimal
  rw [if_neg hn, natDigitsRev_eq_digits n n le_rfl]

/-- A non-zero number's decimal digit characters are never just `"0"`. -/
theorem digits_map_ne_zero_char {m : Nat} (hm : m ≠ 0)
    (hmap : (Nat.digits 10 m).map Nat.digitChar = ['0']) : False := by
  rcases hds : Nat.digits 10 m with _ | ⟨d, t⟩
  · rw [hds] at hmap; simp at hmap
  · rw [hds] at hmap
    simp only [List.map_cons, List.cons.injEq] at hmap
    have ht : t = [] := by
      cases t with
      | nil => rfl
      | cons a b => simpa using hmap.2
    have hd10 : d < 10 :=
      Nat.digits_lt_base (by norm_num) (hds ▸ List.mem_cons_self d t)
    have hd0 : d = 0 := by
      have h0 := charToDigit_digitChar d hd10
      rw [hmap.1] at h0
      simpa [charToDigit] using h0.symm
    subst ht
    subst hd0
    have : m = 0 := by
      have h1 := congrArg (Nat.ofDigits 10) hds
      rw [Nat.ofDigits_digits] at h1
      simpa [Nat.ofDigits] using h1
    exact hm this

/-- Decimal rendering is injective. -/
theorem natDecimal_inj {n m : Nat} (h : natDecimal n = natDecimal m) : n = m := by
  by_cases hn : n = 0 <;> by_cases hm : m = 0
  · omega
  · exfalso
    have hd := congrArg String.data h
    rw [natDecimal_data hm] at hd
    subst hn
    have hd' : ((Nat.digits 10 m).map Nat.digitChar).reverse = ['0'] := hd.symm
    have hmap : (Nat.digits 10 m).map Nat.digitChar = ['0'] := by
      have := congrArg List.reverse hd'
      simpa using this
    exact digits_map_ne_zero_char hm hmap
  · exfalso
    have hd := congrArg String.data h
    rw [natDecimal_data hn] at hd
    subst hm
    have hmap : (Nat.digits 10 n).map Nat.digitChar = ['0'] := by
      have := congrArg List.reverse hd
      simpa using this
    exact digits_map_ne_zero_char hn hmap
  · have hd := congrArg String.data h
    rw [natDecimal_data hn, natDecimal_data hm] at hd
    have hrev := congrArg List.reverse hd
    simp only [List.reverse_reverse] at hrev
    have hdig : Nat.digits 10 n = Nat.digits 10 m :=
      map_digitChar_inj
        (fun d hd => Nat.digits_lt_base (by norm_num) hd)
        (fun e he => Nat.digits_lt_base (by norm_num) he) hrev
    have := congrArg (Nat.ofDigits 10) hdig
    rwa [Nat.ofDigits_digits, Nat.ofDigits_digits] at this

/-- A slash never occurs in a decimal rendering. -/
theorem slash_not_mem_natDecimal (n : Nat) : '/' ∉ (natDecimal n).data := by
  by_cases hn : n = 0
  · subst hn; decide
  · rw [natDecimal_data hn]
    intro hmem
    rw [List.mem_reverse] at hmem
    obtain ⟨d, hd, heq⟩ := List.mem_map.mp hmem
    exact digitChar_ne_slash d (Nat.digits_lt_base (by norm_num) hd) heq

/-! ### Path derivation -/

/-- Splitting at a character that does not occur returns the whole list. -/
theorem splitChar_not_mem {c : Char} : ∀ {cs : List Char}, c ∉ cs → splitChar c cs = [cs] := by
  intro cs
  induction cs with
  | nil => intro _; rfl
  | cons x xs ih =>
    intro h
    have hx : x ≠ c := fun hxc => h (hxc ▸ List.mem_cons_self x xs)
    have hxs : c ∉ xs := fun hmem => h (List.mem_cons_of_mem x hmem)
    rw [splitChar, ih hxs]
    simp [hx]

/-- A good name contributes itself as the single path component. -/
theorem pathComponents_single {s : String} (h1 : s ≠ "") (h2 : s ≠ ".") (h3 : '/' ∉ s.data) :
    pathComponents s = [s] := by
  unfold pathComponents
  rw [splitChar_not_mem h3]
  simp [h1, h2]

/-- Joining a good name appends one component. -/
theorem join_single (p : FsPath) (s : String) (h1 : s ≠ "") (h2 : s ≠ ".")
    (h3 : '/' ∉ s.data) : p.join s = ⟨p.abs, p.comps ++ [s]⟩ := by
  unfold FsPath.join
  have hh : ¬ s.data.head? = some '/' := by
    cases hd : s.data with
    | nil => simp
    | cons a t =>
      simp only [List.head?_cons, Option.some.injEq]
      intro ha
      exact h3 (hd ▸ ha ▸ List.mem_cons_self a t)
  rw [if_neg hh, pathComponents_single h1 h2 h3]

/-- Good identities have good owner and repo. -/
theorem goodIssue_owner_repo {i : IssueRef} (hi : goodIssue i) :
    goodName i.owner ∧ goodName i.repo := by
  cases i with
  | GitHub o r n => exact hi
  | Linear o r id => exact ⟨hi.1, hi.2.1⟩

/-- A string starting with a given non-empty literal prefix has at least
that many characters. -/
theorem data_length_append (a x : String) :
    (a ++ x).data.length = a.data.length + x.data.length := by
  rw [String.data_append, List.length_append]

/-- The workspace directory name of a good identity is a good name. -/
theorem goodName_dirname {i : IssueRef} (hi : goodIssue i) :
    goodName i.workspace_dir_name := by
  cases i with
  | GitHub o r n =>
    unfold goodName
    simp only [IssueRef.workspace_dir_name]
    refine ⟨?_, ?_, ?_⟩
    · intro h
      have hlen : ("issue-" ++ natDecimal n).data.length = ("" : String).data.length :=
        congrArg (fun s => s.data.length) h
      rw [data_length_append] at hlen
      have h6 : "issue-".data.length = 6 := by decide
      have h0 : ("" : String).data.length = 0 := by decide
      rw [h6, h0] at hlen
      omega
    · intro h
      have hlen : ("issue-" ++ natDecimal n).data.length = ("." : String).data.length :=
        congrArg (fun s => s.data.length) h
      rw [data_length_append] at hlen
      have h6 : "issue-".data.length = 6 := by decide
      have h0 : ("." : String).data.length = 1 := by decide
      rw [h6, h0] at hlen
      omega
    · intro hmem
      rw [String.data_append] at hmem
      rcases List.mem_append.mp hmem with h | h
      · exact absurd h (by decide)
      · exact slash_not_mem_natDecimal n h
  | Linear o r id =>
    unfold goodName
    simp only [IssueRef.workspace_dir_name]
    refine ⟨?_, ?_, ?_⟩
    · intro h
      have hlen : ("linear-" ++ id).data.length = ("" : String).data.length :=
        congrArg (fun s => s.data.length) h
      rw [data_length_append] at hlen
      have h7 : "linear-".data.length = 7 := by decide
      have h0 : ("" : String).data.length = 0 := by decide
      rw [h7, h0] at hlen
      omega
    · intro h
      have hlen : ("linear-" ++ id).data.length = ("." : String).data.length :=
        congrArg (fun s => s.data.length) h
      rw [data_length_append] at hlen
      have h7 : "linear-".data.length = 7 := by decide
      have h0 : ("." : String).data.length = 1 := by decide
      rw [h7, h0] at hlen
      omega
    · intro hmem
      rw [String.data_append] at hmem
      rcases List.mem_append.mp hmem with h | h
      · exact absurd h (by decide)
      · exact hi.2.2 h

/-- Explicit component list of `temp_path` for good identities. -/
theorem temp_path_eq (home : FsPath) (i : IssueRef) (hi : goodIssue i) :
    temp_path home i =
      ⟨home.abs,
        home.comps ++ ["worktrees", "github", i.owner, i.repo, i.workspace_dir_name]⟩ := by
  obtain ⟨ho, hr⟩ := goodIssue_owner_repo hi
  have hl := goodName_dirname hi
  unfold temp_path bare_clone_path
  rw [join_single home "worktrees" (by decide) (by decide) (by decide)]
  rw [join_single _ "github" (by decide) (by decide) (by decide)]
  rw [join_single _ i.owner ho.1 ho.2.1 ho.2.2]
  rw [join_single _ i.repo hr.1 hr.2.1 hr.2.2]
  rw [join_single _ i.workspace_dir_name hl.1 hl.2.1 hl.2.2]
  simp

/-- Cancel a common string prefix. -/
theorem strAppendCancel {a x y : String} (h : a ++ x = a ++ y) : x = y := by
  have hd := congrArg String.data h
  rw [String.data_append, String.data_append] at hd
  exact String.ext (List.append_cancel_left hd)

/-- Claim C2 (amended): `bare_clone_path` and `temp_path` are functions of
the identity (and the home directory), and for identities whose owner and
repo are single path components (non-empty, not `"."`, slash-free — the
claim's bare non-emptiness is not enough, see `temp_path_collision`) and
whose Linear id is slash-free, `temp_path` is injective: two identities
share a worktree path exactly when they are equal. -/
theorem temp_path_inj_iff (home : FsPath) (i j : IssueRef)
    (hi : goodIssue i) (hj : goodIssue j) :
    temp_path home i = temp_path home j ↔ i = j := by
  constructor
  · intro h
    rw [temp_path_eq home i hi, temp_path_eq home j hj] at h
    have hcomps :
        home.comps ++ ["worktrees", "github", i.owner, i.repo, i.workspace_dir_name] =
          home.comps ++ ["worktrees", "github", j.owner, j.repo, j.workspace_dir_name] :=
      congrArg FsPath.comps h
    have hfields := List.append_cancel_left hcomps
    simp only [List.cons.injEq, and_true] at hfields
    obtain ⟨-, -, ho, hr, hleaf⟩ := hfields
    cases i with
    | GitHub o r n =>
      cases j with
      | GitHub o' r' m =>
        simp only [IssueRef.owner, IssueRef.repo] at ho hr
        have hn : n = m := by
          simp only [IssueRef.workspace_dir_name] at hleaf
          exact natDecimal_inj (strAppendCancel hleaf)
        rw [ho, hr, hn]
      | Linear o' r' id =>
        exfalso
        simp only [IssueRef.workspace_dir_name] at hleaf
        have hd := congrArg String.data hleaf
        rw [String.data_append, String.data_append] at hd
        have e1 : "issue-".data = 'i' :: "ssue-".data := by decide
        have e2 : "linear-".data = 'l' :: "inear-".data := by decide
        rw [e1, e2] at hd
        simp at hd
    | Linear o r id =>
      cases j with
      | GitHub o' r' m =>
        exfalso
        simp only [IssueRef.workspace_dir_name] at hleaf
        have hd := congrArg String.data hleaf
        rw [String.data_append, String.data_append] at hd
        have e1 : "linear-".data = 'l' :: "inear-".data := by decide
        have e2 : "issue-".data = 'i' :: "ssue-".data := by decide
        rw [e1, e2] at hd
        simp at hd
      | Linear o' r' id' =>
        simp only [IssueRef.owner, IssueRef.repo] at ho hr
        have hid : id = id' := by
          simp only [IssueRef.workspace_dir_name] at hleaf
          exact strAppendCancel hleaf
        rw [ho, hr, hid]
  · intro h
    rw [h]

/-- Witness for the amended Claim C2 at concrete identities. -/
theorem temp_path_inj_iff_witness :
    goodIssue (IssueRef.Linear "acme" "api" "9cad7a4b-9426-4788-9dbc-e784df999053") ∧
    goodIssue (IssueRef.Linear "acme" "api2" "9cad7a4b-9426-4788-9dbc-e784df999053") ∧
    (temp_path ⟨true, ["home", "user"]⟩
        (IssueRef.Linear "acme" "api" "9cad7a4b-9426-4788-9dbc-e784df999053") =
      temp_path ⟨true, ["home", "user"]⟩
        (IssueRef.Linear "acme" "api2" "9cad7a4b-9426-4788-9dbc-e784df999053") ↔
      IssueRef.Linear "acme" "api" "9cad7a4b-9426-4788-9dbc-e784df999053" =
        IssueRef.Linear "acme" "api2" "9cad7a4b-9426-4788-9dbc-e784df999053") :=
  ⟨by decide, by decide,
    temp_path_inj_iff ⟨true, ["home", "user"]⟩ _ _ (by decide) (by decide)⟩

/-- Claim C2 counterexample: two distinct identities with non-empty owner
and repo whose worktree paths coincide (a slash inside the owner shifts the
`owner/repo` split). -/
theorem temp_path_collision :
    (IssueRef.Linear "a/b" "c" "9cad7a4b-9426-4788-9dbc-e784df999053" ≠
      IssueRef.Linear "a" "b/c" "9cad7a4b-9426-4788-9dbc-e784df999053") ∧
    ("a/b" ≠ "" ∧ "c" ≠ "" ∧ "a" ≠ "" ∧ "b/c" ≠ "") ∧
    temp_path ⟨true, ["home", "user"]⟩
        (IssueRef.Linear "a/b" "c" "9cad7a4b-9426-4788-9dbc-e784df999053") =
      temp_path ⟨true, ["home", "user"]⟩
        (IssueRef.Linear "a" "b/c" "9cad7a4b-9426-4788-9dbc-e784df999053") := by
  decide

/-! ### Shorthand parsing -/

/-- The split `splitOnceL` is at the FIRST occurrence: the left part is free of
the separator and the parts reassemble the input. -/
theorem splitOnceL_first {c : Char} :
    ∀ {cs a b : List Char}, splitOnceL c cs = some (a, b) →
      c ∉ a ∧ cs = a ++ c :: b := by
  intro cs
  induction cs with
  | nil => intro a b h; simp [splitOnceL] at h
  | cons x xs ih =>
    intro a b h
    rw [splitOnceL] at h
    by_cases hx : x = c
    · rw [if_pos hx] at h
      obtain ⟨rfl, rfl⟩ : [] = a ∧ xs = b := by
        constructor <;> [exact congrArg Prod.fst (Option.some.inj h);
          exact congrArg Prod.snd (Option.some.inj h)]
      exact ⟨List.not_mem_nil c, by simp [hx]⟩
    · rw [if_neg hx] at h
      rcases hs : splitOnceL c xs with _ | ⟨a', b'⟩
      · rw [hs] at h; simp at h
      · rw [hs] at h
        simp only [Option.some.injEq, Prod.mk.injEq] at h
        obtain ⟨ha, hb⟩ := h
        obtain ⟨hmem, heq⟩ := ih hs
        subst ha hb
        refine ⟨?_, by simp [heq]⟩
        intro hm
        rcases List.mem_cons.mp hm with h1 | h1
        · exact hx h1.symm
        · exact hmem h1

/-- Splitting at an inserted separator whose left part avoids it. -/
theorem splitOnceL_append {c : Char} :
    ∀ {a : List Char} (b : List Char), c ∉ a → splitOnceL c (a ++ c :: b) = some (a, b) := by
  intro a
  induction a with
  | nil => intro b _; simp [splitOnceL]
  | cons x xs ih =>
    intro b h
    have hx : x ≠ c := fun hxc => h (hxc ▸ List.mem_cons_self x xs)
    have hxs : c ∉ xs := fun hm => h (List.mem_cons_of_mem x hm)
    rw [List.cons_append, splitOnceL, if_neg hx, ih b hxs]

/-- The split `splitOnceL` finds no separator exactly when there is none. -/
theorem splitOnceL_none {c : Char} :
    ∀ {cs : List Char}, splitOnceL c cs = none → c ∉ cs := by
  intro cs
  induction cs with
  | nil => intro _; exact List.not_mem_nil c
  | cons x xs ih =>
    intro h
    rw [splitOnceL] at h
    by_cases hx : x = c
    · rw [if_pos hx] at h; simp at h
    · rw [if_neg hx] at h
      rcases hs : splitOnceL c xs with _ | p
      · intro hm
        rcases List.mem_cons.mp hm with h1 | h1
        · exact hx h1.symm
        · exact ih hs h1
      · rw [hs] at h; simp at h

/-- Claim C5 (amended): the Linear shorthand splits at the FIRST `'@'`
(not the last, see `shorthand_first_at_counterexample`): the left part
never contains `'@'`; if it has no `'/'` the form does not match at all
(falling through to the generic error, the `#`-branch being skipped); with
empty owner or repo the input fails with the "Invalid shorthand format"
error; otherwise a right part that is not a valid UUID fails with the
specific "Invalid Linear issue UUID in shorthand" error and a valid UUID
succeeds. -/
theorem shorthand_splits_first_at (s l r : String)
    (hsplit : splitOnceStr '@' s = some (l, r)) :
    '@' ∉ l.data ∧ s.data = l.data ++ '@' :: r.data ∧
    (splitOnceStr '/' l = none → try_parse_shorthand s = none) ∧
    (∀ o rp, splitOnceStr '/' l = some (o, rp) →
      ((o = "" ∨ rp = "") →
        try_parse_shorthand s = some (Except.error ("Invalid shorthand format: " ++ s))) ∧
      (o ≠ "" → rp ≠ "" → uuidParseOk r = false →
        try_parse_shorthand s =
          some (Except.error ("Invalid Linear issue UUID in shorthand: " ++ r))) ∧
      (o ≠ "" → rp ≠ "" → uuidParseOk r = true →
        try_parse_shorthand s = some (Except.ok (IssueRef.Linear o rp r)))) := by
  have hL : splitOnceL '@' s.data =
      some (l.data, r.data) := by
    unfold splitOnceStr at hsplit
    rcases hs : splitOnceL '@' s.data with _ | ⟨a, b⟩
    · rw [hs] at hsplit; simp at hsplit
    · rw [hs] at hsplit
      simp only [Option.some.injEq, Prod.mk.injEq] at hsplit
      obtain ⟨ha, hb⟩ := hsplit
      subst ha
      subst hb
      rfl
  obtain ⟨hnotmem, heq⟩ := splitOnceL_first hL
  refine ⟨hnotmem, heq, ?_, ?_⟩
  · intro hslash
    simp only [try_parse_shorthand, hsplit, hslash]
  · intro o rp hslash
    refine ⟨?_, ?_, ?_⟩
    · intro hor
      simp only [try_parse_shorthand, hsplit, hslash]
      rcases hor with h1 | h1 <;> simp [h1]
    · intro h1 h2 hu
      simp only [try_parse_shorthand, hsplit, hslash]
      simp [h1, h2, hu]
    · intro h1 h2 hu
      simp only [try_parse_shorthand, hsplit, hslash]
      simp [h1, h2, hu]

/-- Witness for Claim C5 at a concrete malformed-UUID input. -/
theorem shorthand_splits_first_at_witness :
    splitOnceStr '@' "o/r@xyz" = some ("o/r", "xyz") ∧
    try_parse_shorthand "o/r@xyz" =
      some (Except.error ("Invalid Linear issue UUID in shorthand: " ++ "xyz")) :=
  ⟨by decide,
    (((shorthand_splits_first_at "o/r@xyz" "o/r" "xyz" (by decide)).2.2.2
      "o" "r" (by decide)).2.1 (by decide) (by decide) (by decide))⟩

/-- Claim C5 counterexample: on an input with two `'@'`s the code splits at
the first (and, the prefix `"a"` having no slash, rejects the input with
the generic error), while the claim's split at the last `'@'` would accept
it as `Linear{owner: "a@b", repo: "c"}`. -/
theorem shorthand_first_at_counterexample :
    try_parse_shorthand "a@b/c@9cad7a4b-9426-4788-9dbc-e784df999053" = none ∧
    shorthandSpecLastAt "a@b/c@9cad7a4b-9426-4788-9dbc-e784df999053" =
      some (Except.ok
        (IssueRef.Linear "a@b" "c" "9cad7a4b-9426-4788-9dbc-e784df999053")) ∧
    parse "a@b/c@9cad7a4b-9426-4788-9dbc-e784df999053" =
      Except.error (genericFormatsError "a@b/c@9cad7a4b-9426-4788-9dbc-e784df999053") := by
  refine ⟨by decide, by decide, by decide⟩

/-- Lift a data-level split to the string level. -/
theorem splitOnceStr_of_data {c : Char} {s l r : String}
    (h : splitOnceL c s.data = some (l.data, r.data)) : splitOnceStr c s = some (l, r) := by
  unfold splitOnceStr
  rw [h]

/-- Claim C6 (amended): every canonical hyphenated 8-4-4-4-12 UUID is
accepted, but the acceptance set is exactly the `uuid` crate's four
formats (simple 32-hex, hyphenated, braced, URN — see
`uuid_simple_form_accepted` for a non-hyphenated accepted value): a
well-formed `owner/repo@id` shorthand succeeds exactly when `id` parses as
a UUID and otherwise fails with the error mentioning "UUID", and the
`linear_id` deep-link parameter behaves identically. -/
theorem uuid_acceptance_set :
    (∀ s, specHyphenatedUuid s = true → uuidParseOk s = true) ∧
    (∀ owner repo id : String, owner ≠ "" → repo ≠ "" →
      '@' ∉ owner.data → '/' ∉ owner.data → '@' ∉ repo.data →
      try_parse_shorthand (owner ++ "/" ++ repo ++ "@" ++ id) =
        (if uuidParseOk id then some (Except.ok (IssueRef.Linear owner repo id))
         else some (Except.error ("Invalid Linear issue UUID in shorthand: " ++ id)))) ∧
    (∀ v st, processPairs [("linear_id", v)] st =
      (if uuidParseOk v then Except.ok { st with linearId := some v }
       else Except.error ("Invalid Linear issue UUID: " ++ v))) := by
  refine ⟨?_, ?_, ?_⟩
  · intro s h
    unfold specHyphenatedUuid at h
    rw [Bool.and_eq_true] at h
    obtain ⟨h1, h2⟩ := h
    have hlen : s.data.length = 36 := of_decide_eq_true h1
    simp [uuidParseOk, hlen, h2]
  · intro owner repo id ho hr hao haor har
    have hdata1 : (owner ++ "/" ++ repo).data = owner.data ++ '/' :: repo.data := by
      rw [String.data_append, String.data_append]
      have : "/".data = ['/'] := by decide
      rw [this]
      simp
    have hdata2 : (owner ++ "/" ++ repo ++ "@" ++ id).data =
        (owner.data ++ '/' :: repo.data) ++ '@' :: id.data := by
      rw [String.data_append, String.data_append, hdata1]
      have : "@".data = ['@'] := by decide
      rw [this]
      simp
    have hnot : '@' ∉ owner.data ++ '/' :: repo.data := by
      intro hmem
      rcases List.mem_append.mp hmem with h1 | h1
      · exact hao h1
      · rcases List.mem_cons.mp h1 with h2 | h2
        · exact absurd h2 (by decide)
        · exact har h2
    have hsplit1 : splitOnceStr '@' (owner ++ "/" ++ repo ++ "@" ++ id) =
        some (owner ++ "/" ++ repo, id) := by
      apply splitOnceStr_of_data
      rw [hdata2, hdata1]
      exact splitOnceL_append id.data hnot
    have hsplit2 : splitOnceStr '/' (owner ++ "/" ++ repo) = some (owner, repo) := by
      apply splitOnceStr_of_data
      rw [hdata1]
      exact splitOnceL_append repo.data haor
    have hne1 : decide (owner = "") = false := by simp [ho]
    have hne2 : decide (repo = "") = false := by simp [hr]
    cases hu : uuidParseOk id
    · simp [try_parse_shorthand, hsplit1, hsplit2, hne1, hne2, hu]
    · simp [try_parse_shorthand, hsplit1, hsplit2, hne1, hne2, hu]
  · intro v st
    simp only [processPairs]
    rw [if_neg (by decide), if_neg (by decide), if_neg (by decide), if_pos (by decide)]

/-- Witness for the amended Claim C6 at a concrete non-UUID value. -/
theorem uuid_acceptance_set_witness :
    try_parse_shorthand ("o" ++ "/" ++ "r" ++ "@" ++ "9cad7a4b-9426-4788-9dbc") =
      (if uuidParseOk "9cad7a4b-9426-4788-9dbc" then
        some (Except.ok (IssueRef.Linear "o" "r" "9cad7a4b-9426-4788-9dbc"))
       else
        some (Except.error
          ("Invalid Linear issue UUID in shorthand: " ++ "9cad7a4b-9426-4788-9dbc"))) :=
  uuid_acceptance_set.2.1 "o" "r" "9cad7a4b-9426-4788-9dbc"
    (by decide) (by decide) (by decide) (by decide) (by decide)

/-- Claim C6 counterexample: the 32-hex simple form is not hyphenated
8-4-4-4-12, yet the shorthand accepts it as a Linear id. -/
theorem uuid_simple_form_accepted :
    specHyphenatedUuid "9cad7a4b942647889dbce784df999053" = false ∧
    parse "o/r@9cad7a4b942647889dbce784df999053" =
      Except.ok (IssueRef.Linear "o" "r" "9cad7a4b942647889dbce784df999053") := by
  refine ⟨by decide, by decide⟩

/-! ### GitHub issue URLs -/

/-- Claim C7 (amended): after URL parsing, `parse_github_url` filters out
empty path segments and succeeds exactly when AT LEAST four remain with
the third equal to `"issues"` and the fourth parsing as a `u64`; extra
trailing segments are ignored (see `github_url_extra_segments_accepted`,
which refutes the claim's "exactly four"); on success owner, repo and
number are the first, second and fourth segments verbatim. -/
theorem github_url_segment_rule :
    (∀ s u, u.path = none → parse_github_url_core s u = Except.error "URL has no path") ∧
    (∀ s u segs segments, u.path = some segs →
      segments = segs.filter (fun t => !(t = "")) →
      (segments.length < 4 →
        parse_github_url_core s u = Except.error (githubUrlShapeError s)) ∧
      (¬ segments.length < 4 → ¬ segments.getD 2 "" = "issues" →
        parse_github_url_core s u = Except.error (githubUrlShapeError s)) ∧
      (¬ segments.length < 4 → segments.getD 2 "" = "issues" →
        parseU64 (segments.getD 3 "") = none →
        parse_github_url_core s u =
          Except.error ("Invalid issue number in URL: " ++ segments.getD 3 "")) ∧
      (∀ n, ¬ segments.length < 4 → segments.getD 2 "" = "issues" →
        parseU64 (segments.getD 3 "") = some n →
        parse_github_url_core s u =
          Except.ok (IssueRef.GitHub (segments.getD 0 "") (segments.getD 1 "") n))) := by
  constructor
  · intro s u hp
    simp only [parse_github_url_core, hp]
  · intro s u segs segments hp hseg
    subst hseg
    refine ⟨?_, ?_, ?_, ?_⟩
    · intro h4
      simp only [parse_github_url_core, hp]
      rw [if_pos h4]
    · intro h4 hi
      simp only [parse_github_url_core, hp]
      rw [if_neg h4, if_pos (by rw [decide_eq_false hi]; decide)]
    · intro h4 hi hnum
      simp only [parse_github_url_core, hp]
      rw [if_neg h4, if_neg (by rw [decide_eq_true hi]; simp), hnum]
    · intro n h4 hi hnum
      simp only [parse_github_url_core, hp]
      rw [if_neg h4, if_neg (by rw [decide_eq_true hi]; simp), hnum]

/-- Witness for the amended Claim C7: a five-segment URL is accepted, the
extra segment ignored. -/
theorem github_url_segment_rule_witness :
    parse_github_url_core "x"
        ⟨"https", "github.com", some ["o", "r", "issues", "42", "extra"], []⟩ =
      Except.ok (IssueRef.GitHub "o" "r" 42) :=
  (github_url_segment_rule.2 "x"
      ⟨"https", "github.com", some ["o", "r", "issues", "42", "extra"], []⟩
      ["o", "r", "issues", "42", "extra"] _ rfl rfl).2.2.2 42
    (by decide) (by decide) (by decide)

/-- Claim C7 counterexample: a URL whose path has five segments (not
"exactly `{owner}/{repo}/issues/{number}`") parses successfully. -/
theorem github_url_extra_segments_accepted :
    parse "https://github.com/o/r/issues/42/extra" = Except.ok (IssueRef.GitHub "o" "r" 42) ∧
    Option.map Url.path (urlParse "https://github.com/o/r/issues/42/extra") =
      some (some ["o", "r", "issues", "42", "extra"]) := by
  refine ⟨by decide, by decide⟩

/-! ### Non-empty owner and repo -/

/-- Members surviving the empty-segment filter are non-empty. -/
theorem filter_nonempty_mem {l : List String} {x : String}
    (hx : x ∈ l.filter fun t => !(t = "")) : x ≠ "" := by
  have := (List.mem_filter.mp hx).2
  simpa using this

/-- Every identity produced by the GitHub-URL branch has non-empty owner
and repo (segments are filtered non-empty before indexing). -/
theorem githubCore_ok_nonempty {s : String} {u : Url} {i : IssueRef}
    (h : parse_github_url_core s u = Except.ok i) : i.owner ≠ "" ∧ i.repo ≠ "" := by
  rcases hp : u.path with _ | segs
  · simp [parse_github_url_core, hp] at h
  · simp only [parse_github_url_core, hp] at h
    set segments := segs.filter (fun t => !(t = "")) with hseg
    by_cases h4 : segments.length < 4
    · simp [h4] at h
    · rw [if_neg h4] at h
      by_cases hi : segments.getD 2 "" = "issues"
      · rw [if_neg (by rw [decide_eq_true hi]; simp)] at h
        rcases hnum : parseU64 (segments.getD 3 "") with _ | n
        · rw [hnum] at h
          simp at h
        · rw [hnum] at h
          simp only [Except.ok.injEq] at h
          have hlen : 4 ≤ segments.length := Nat.le_of_not_lt h4
          have h0 : segments.getD 0 "" ∈ segments := by
            rw [List.getD_eq_getElem segments "" (by omega)]
            exact List.getElem_mem _
          have h1 : segments.getD 1 "" ∈ segments := by
            rw [List.getD_eq_getElem segments "" (by omega)]
            exact List.getElem_mem _
          rw [← h]
          exact ⟨filter_nonempty_mem (hseg ▸ h0), filter_nonempty_mem (hseg ▸ h1)⟩
      · rw [if_pos (by rw [decide_eq_false hi]; decide)] at h
        simp at h

/-- Every identity produced by the shorthand branch has non-empty owner
and repo (the parser checks this explicitly). -/
theorem shorthand_ok_nonempty {s : String} {i : IssueRef}
    (h : try_parse_shorthand s = some (Except.ok i)) : i.owner ≠ "" ∧ i.repo ≠ "" := by
  rcases h1 : splitOnceStr '@' s with _ | ⟨l, r⟩
  · rcases h2 : splitOnceStr '#' s with _ | ⟨rp, ns⟩
    · simp [try_parse_shorthand, h1, h2] at h
    · rcases h3 : splitOnceStr '/' rp with _ | ⟨o, re⟩
      · simp [try_parse_shorthand, h1, h2, h3] at h
      · simp only [try_parse_shorthand, h1, h2, h3] at h
        by_cases ho : o = ""
        · simp [ho] at h
        by_cases hre : re = ""
        · simp [hre] at h
        rcases h4 : parseU64 ns with _ | n
        · simp [ho, hre, h4] at h
        · simp only [ho, hre, h4, decide_False, Bool.or_self, Bool.false_eq_true,
            if_false, Option.some.injEq, Except.ok.injEq] at h
          rw [← h]
          exact ⟨ho, hre⟩
  · rcases h3 : splitOnceStr '/' l with _ | ⟨o, re⟩
    · simp [try_parse_shorthand, h1, h3] at h
    · simp only [try_parse_shorthand, h1, h3] at h
      by_cases ho : o = ""
      · simp [ho] at h
      by_cases hre : re = ""
      · simp [hre] at h
      by_cases hu : uuidParseOk r
      · simp only [ho, hre, hu, decide_False, Bool.or_self, Bool.not_true,
          Bool.false_eq_true, if_false, Option.some.injEq, Except.ok.injEq] at h
        rw [← h]
        exact ⟨ho, hre⟩
      · simp [ho, hre, hu] at h

/-- Claim C9 (amended): identities from the web-URL and shorthand forms
always have non-empty owner and repo, and so does any successful
non-deep-link `parse`; deep links are the exception (the query parameter
values are stored as decoded, possibly empty — see
`parse_deep_link_empty_owner`). -/
theorem parse_nonempty_owner_repo :
    (∀ s u i, parse_github_url_core s u = Except.ok i → i.owner ≠ "" ∧ i.repo ≠ "") ∧
    (∀ s i, try_parse_shorthand s = some (Except.ok i) → i.owner ≠ "" ∧ i.repo ≠ "") ∧
    (∀ s i, strStartsWith (rustTrim s) "worktree://" = false → parse s = Except.ok i →
      i.owner ≠ "" ∧ i.repo ≠ "") := by
  refine ⟨fun s u i h => githubCore_ok_nonempty h, fun s i h => shorthand_ok_nonempty h, ?_⟩
  intro s i hw h
  unfold parse parseTrimmed at h
  rw [hw] at h
  simp only [Bool.false_eq_true, if_false] at h
  by_cases hg : (strStartsWith (rustTrim s) "https://github.com" ||
      strStartsWith (rustTrim s) "http://github.com") = true
  · rw [hg] at h
    simp only [if_true] at h
    unfold parse_github_url at h
    rcases hu : urlParse (rustTrim s) with _ | u
    · simp [hu] at h
    · rw [hu] at h
      exact githubCore_ok_nonempty h
  · rw [Bool.not_eq_true] at hg
    rw [hg] at h
    simp only [Bool.false_eq_true, if_false] at h
    rcases hs : try_parse_shorthand (rustTrim s) with _ | res
    · rw [hs] at h
      simp at h
    · rw [hs] at h
      dsimp only at h
      exact shorthand_ok_nonempty (by rw [hs, h])

/-- Witness for the amended Claim C9 at a concrete shorthand input. -/
theorem parse_nonempty_owner_repo_witness :
    IssueRef.owner (IssueRef.GitHub "o" "r" 1) ≠ "" ∧
    IssueRef.repo (IssueRef.GitHub "o" "r" 1) ≠ "" :=
  parse_nonempty_owner_repo.2.2 "o/r#1" (IssueRef.GitHub "o" "r" 1) (by decide) (by decide)

/-- Claim C9 counterexample: a deep link with an explicitly empty `owner`
parameter parses successfully into an identity with empty owner. -/
theorem parse_deep_link_empty_owner :
    parse "worktree://open?owner=&repo=x&issue=1" = Except.ok (IssueRef.GitHub "" "x" 1) := by
  decide

/-! ### Deep-link query resolution -/

/-- Overlaying over an already-present value ignores the fallback. -/
theorem overlayOpt_overlay_some {α : Type} (a : Option α) (v : α) (b : Option α) :
    overlayOpt (overlayOpt a (some v)) b = overlayOpt a (some v) := by
  cases a <;> rfl

/-- Overlaying with no fallback is the identity. -/
theorem overlayOpt_none_right {α : Type} (a : Option α) : overlayOpt a none = a := by
  cases a <;> rfl

/-- A key's last value is the value of some pair with that key. -/
theorem lastVal_mem {k : String} : ∀ {ps : List (String × String)} {v},
    lastVal k ps = some v → (k, v) ∈ ps := by
  intro ps
  induction ps with
  | nil => intro v h; simp [lastVal] at h
  | cons p ps ih =>
    intro v h
    rw [lastVal] at h
    cases hL : lastVal k ps with
    | some w =>
      rw [hL] at h
      cases h
      exact List.mem_cons_of_mem _ (ih hL)
    | none =>
      rw [hL] at h
      by_cases hk : p.1 = k
      · rw [if_pos hk] at h
        have hv : p.2 = v := Option.some.inj h
        have : (k, v) = p := by
          rw [← hk, ← hv]
        rw [this]
        exact List.mem_cons_self p ps
      · rw [if_neg hk] at h
        simp at h

/-- Prepending a pair with a different key leaves a key's last value. -/
theorem lastVal_cons_ne {k k' v : String} {ps : List (String × String)}
    (h : ¬ k = k') : lastVal k' ((k, v) :: ps) = lastVal k' ps := by
  rw [lastVal]
  cases lastVal k' ps <;> simp [h]

/-- Prepending a pair with the same key installs its value as fallback. -/
theorem lastVal_cons_eq {k v : String} {ps : List (String × String)} :
    lastVal k ((k, v) :: ps) = overlayOpt (lastVal k ps) (some v) := by
  rw [lastVal]
  cases lastVal k ps <;> simp [overlayOpt]

/-- On well-formed pairs the loop never bails, and each recognized field
ends up holding the last occurrence of its key (the `issue` value parsed,
everything else verbatim). -/
theorem processPairs_ok_fields : ∀ (ps : List (String × String)) (st0 : WtState),
    wellFormedPairs ps →
    processPairs ps st0 = Except.ok
      { owner := overlayOpt (lastVal "owner" ps) st0.owner,
        repo := overlayOpt (lastVal "repo" ps) st0.repo,
        issue := overlayOpt ((lastVal "issue" ps).bind parseU64) st0.issue,
        linearId := overlayOpt (lastVal "linear_id" ps) st0.linearId,
        urlParam := overlayOpt (lastVal "url" ps) st0.urlParam,
        editor := overlayOpt (lastVal "editor" ps) st0.editor } := by
  intro ps
  induction ps with
  | nil => intro st0 _; rfl
  | cons p ps ih =>
    obtain ⟨k, v⟩ := p
    intro st0 hwf
    have hwf' : wellFormedPairs ps := fun q hq => hwf q (List.mem_cons_of_mem _ hq)
    have hhead := hwf (k, v) (List.mem_cons_self _ _)
    by_cases h1 : k = "owner"
    · subst h1
      rw [processPairs, if_pos rfl, ih _ hwf',
        lastVal_cons_eq, lastVal_cons_ne (by decide), lastVal_cons_ne (by decide),
        lastVal_cons_ne (by decide), lastVal_cons_ne (by decide),
        lastVal_cons_ne (by decide), overlayOpt_overlay_some]
    · by_cases h2 : k = "repo"
      · subst h2
        rw [processPairs, if_neg (by decide), if_pos rfl, ih _ hwf',
          lastVal_cons_eq, lastVal_cons_ne (by decide), lastVal_cons_ne (by decide),
          lastVal_cons_ne (by decide), lastVal_cons_ne (by decide),
          lastVal_cons_ne (by decide), overlayOpt_overlay_some]
      · by_cases h3 : k = "issue"
        · subst h3
          obtain ⟨n, hn⟩ := Option.isSome_iff_exists.mp (hhead.1 rfl)
          have hfield :
              overlayOpt ((lastVal "issue" (("issue", v) :: ps)).bind parseU64) st0.issue =
                overlayOpt ((lastVal "issue" ps).bind parseU64) (some n) := by
            rw [lastVal_cons_eq]
            cases hL : lastVal "issue" ps with
            | none => simp [overlayOpt, hn]
            | some w =>
              obtain ⟨n', hn'⟩ :=
                Option.isSome_iff_exists.mp ((hwf' _ (lastVal_mem hL)).1 rfl)
              simp [overlayOpt, hn']
          rw [processPairs, if_neg (by decide), if_neg (by decide), if_pos rfl, hn]
          dsimp only
          rw [ih _ hwf', hfield, lastVal_cons_ne (by decide), lastVal_cons_ne (by decide),
            lastVal_cons_ne (by decide), lastVal_cons_ne (by decide),
            lastVal_cons_ne (by decide)]
        · by_cases h4 : k = "linear_id"
          · subst h4
            have hu : uuidParseOk v = true := hhead.2 rfl
            rw [processPairs, if_neg (by decide), if_neg (by decide), if_neg (by decide),
              if_pos rfl, if_pos hu, ih _ hwf',
              lastVal_cons_eq, lastVal_cons_ne (by decide), lastVal_cons_ne (by decide),
              lastVal_cons_ne (by decide), lastVal_cons_ne (by decide),
              lastVal_cons_ne (by decide), overlayOpt_overlay_some]
          · by_cases h5 : k = "url"
            · subst h5
              rw [processPairs, if_neg (by decide), if_neg (by decide), if_neg (by decide),
                if_neg (by decide), if_pos rfl, ih _ hwf',
                lastVal_cons_eq, lastVal_cons_ne (by decide), lastVal_cons_ne (by decide),
                lastVal_cons_ne (by decide), lastVal_cons_ne (by decide),
                lastVal_cons_ne (by decide), overlayOpt_overlay_some]
            · by_cases h6 : k = "editor"
              · subst h6
                rw [processPairs, if_neg (by decide), if_neg (by decide),
                  if_neg (by decide), if_neg (by decide), if_neg (by decide), if_pos rfl,
                  ih _ hwf', lastVal_cons_eq, lastVal_cons_ne (by decide),
                  lastVal_cons_ne (by decide), lastVal_cons_ne (by decide),
                  lastVal_cons_ne (by decide), lastVal_cons_ne (by decide),
                  overlayOpt_overlay_some]
              · rw [processPairs, if_neg h1, if_neg h2, if_neg h3, if_neg h4,
                  if_neg h5, if_neg h6, ih _ hwf',
                  lastVal_cons_ne h1, lastVal_cons_ne h2, lastVal_cons_ne h3,
                  lastVal_cons_ne h4, lastVal_cons_ne h5, lastVal_cons_ne h6]

/-- Claim C4 (amended): on deep-link query pairs whose identity-bearing
values are all well-formed, `url` wins over `linear_id`, which wins over
`issue`: a present `url` makes the result exactly the GitHub-URL parser's
result on its (last) value, and after precedence resolution a missing
required field yields an error naming it.  The claim's unconditional
"url overrides entirely" fails on malformed values: a bad `issue` or
`linear_id` value aborts the loop even when `url` is present (see
`worktree_url_param_not_overriding`). -/
theorem worktree_pairs_resolution (ps : List (String × String)) (hwf : wellFormedPairs ps) :
    (∀ u, lastVal "url" ps = some u →
      parse_worktree_pairs ps =
        (match parse_github_url u with
         | Except.error e => Except.error e
         | Except.ok i => Except.ok (i, ⟨lastVal "editor" ps⟩))) ∧
    (lastVal "url" ps = none → ∀ id, lastVal "linear_id" ps = some id →
      (lastVal "owner" ps = none →
        parse_worktree_pairs ps = Except.error "Missing 'owner' query param") ∧
      (∀ o, lastVal "owner" ps = some o →
        (lastVal "repo" ps = none →
          parse_worktree_pairs ps = Except.error "Missing 'repo' query param") ∧
        (∀ r, lastVal "repo" ps = some r →
          parse_worktree_pairs ps =
            Except.ok (IssueRef.Linear o r id, ⟨lastVal "editor" ps⟩)))) ∧
    (lastVal "url" ps = none → lastVal "linear_id" ps = none →
      (lastVal "owner" ps = none →
        parse_worktree_pairs ps = Except.error "Missing 'owner' query param") ∧
      (∀ o, lastVal "owner" ps = some o →
        (lastVal "repo" ps = none →
          parse_worktree_pairs ps = Except.error "Missing 'repo' query param") ∧
        (∀ r, lastVal "repo" ps = some r →
          (lastVal "issue" ps = none →
            parse_worktree_pairs ps = Except.error "Missing 'issue' query param") ∧
          (∀ v n, lastVal "issue" ps = some v → parseU64 v = some n →
            parse_worktree_pairs ps =
              Except.ok (IssueRef.GitHub o r n, ⟨lastVal "editor" ps⟩))))) := by
  have hrun : parse_worktree_pairs ps = resolveWtState
      { owner := lastVal "owner" ps,
        repo := lastVal "repo" ps,
        issue := (lastVal "issue" ps).bind parseU64,
        linearId := lastVal "linear_id" ps,
        urlParam := lastVal "url" ps,
        editor := lastVal "editor" ps } := by
    unfold parse_worktree_pairs
    rw [processPairs_ok_fields ps initWtState hwf]
    simp only [initWtState, overlayOpt_none_right]
  refine ⟨?_, ?_, ?_⟩
  · intro u hu
    rw [hrun, hu]
    simp only [resolveWtState]
  · intro hu id hid
    constructor
    · intro ho
      rw [hrun, hu, hid, ho]
      simp only [resolveWtState]
    · intro o ho
      constructor
      · intro hr
        rw [hrun, hu, hid, ho, hr]
        simp only [resolveWtState]
      · intro r hr
        rw [hrun, hu, hid, ho, hr]
        simp only [resolveWtState]
  · intro hu hid
    constructor
    · intro ho
      rw [hrun, hu, hid, ho]
      simp only [resolveWtState]
    · intro o ho
      constructor
      · intro hr
        rw [hrun, hu, hid, ho, hr]
        simp only [resolveWtState]
      · intro r hr
        constructor
        · intro hiss
          rw [hrun, hu, hid, ho, hr, hiss]
          simp only [resolveWtState, Option.bind]
        · intro v n hv hn
          rw [hrun, hu, hid, ho, hr, hv]
          simp only [Option.bind, resolveWtState, hn]

/-- Witness for the amended Claim C4: with both `url` and `linear_id`
present and well-formed, the `url` parameter wins. -/
theorem worktree_pairs_resolution_witness :
    parse_worktree_pairs
        [("linear_id", "9cad7a4b-9426-4788-9dbc-e784df999053"),
          ("url", "https://github.com/a/b/issues/2")] =
      (match parse_github_url "https://github.com/a/b/issues/2" with
       | Except.error e => Except.error e
       | Except.ok i =>
         Except.ok (i, (⟨none⟩ : DeepLinkOptions))) := by
  have h := (worktree_pairs_resolution
    [("linear_id", "9cad7a4b-9426-4788-9dbc-e784df999053"),
      ("url", "https://github.com/a/b/issues/2")] (by decide)).1
    "https://github.com/a/b/issues/2" (by decide)
  exact h

/-- Claim C4 counterexample: a present (and valid) `url` does not override
a malformed `issue` parameter — the loop aborts on it instead of returning
the GitHub-URL parser's result. -/
theorem worktree_url_param_not_overriding :
    parse_worktree_url
        "worktree://open?url=https%3A%2F%2Fgithub.com%2Fo%2Fr%2Fissues%2F1&issue=abc" =
      Except.error ("Invalid issue number: " ++ "abc") ∧
    parse_github_url "https://github.com/o/r/issues/1" =
      Except.ok (IssueRef.GitHub "o" "r" 1) := by
  refine ⟨by decide, by decide⟩

/-! ### Default-branch detection -/

/-- When tier 1 yields no answer, detection continues with the
remote-show query and the candidate probes. -/
theorem detect_after_tier1 {env : GitEnv} (h : tier1NoAnswer env) :
    detect_default_branch env =
      (match env.remoteShow with
       | CmdOut.ioErr => (Except.error "Failed to run `git remote show origin`",
           [GitOp.symbolicRefHead, GitOp.remoteShowOrigin])
       | CmdOut.run ok2 text =>
         match (if ok2 then headBranchOf text else none) with
         | some branch =>
           (Except.ok branch, [GitOp.symbolicRefHead, GitOp.remoteShowOrigin])
         | none =>
           ((probeCandidates env ["main", "master", "develop"]).1,
             GitOp.symbolicRefHead :: GitOp.remoteShowOrigin ::
               (probeCandidates env ["main", "master", "develop"]).2)) := by
  rcases h with ⟨out, ho⟩ | ⟨out, ho, hstrip⟩
  · simp only [detect_default_branch, ho, Bool.false_eq_true, if_false, if_true, ite_self]
  · simp only [detect_default_branch, ho, hstrip, Bool.false_eq_true, if_false, if_true,
      ite_self]

/-- When tiers 1 and 2 yield no answer, detection is the candidate
probe. -/
theorem detect_after_tier2 {env : GitEnv} (h1 : tier1NoAnswer env) (h2 : tier2NoAnswer env) :
    detect_default_branch env =
      ((probeCandidates env ["main", "master", "develop"]).1,
        GitOp.symbolicRefHead :: GitOp.remoteShowOrigin ::
          (probeCandidates env ["main", "master", "develop"]).2) := by
  rw [detect_after_tier1 h1]
  rcases h2 with ⟨t, ht⟩ | ⟨t, ht, hh⟩
  · simp only [ht, Bool.false_eq_true, if_false, if_true, ite_self]
  · simp only [ht, hh, Bool.false_eq_true, if_false, if_true, ite_self]

/-- Claim C3: `detect_default_branch` tries exactly three tiers in order,
each only when the previous produced no answer: (1) the symbolic ref of
the remote HEAD with the `refs/remotes/origin/` prefix stripped; (2) the
"HEAD branch: " field of the remote-show output; (3) the candidates
`main`, `master`, `develop` in that order, returning the first whose
remote ref exists; with all three exhausted it fails with the
"Could not detect default branch" error.  The returned trace shows which
commands ran. -/
theorem detect_default_branch_three_tiers :
    (∀ env out b, env.symbolicRef = CmdOut.run true out →
      stripPrefixStr "refs/remotes/origin/" (rustTrim out) = some b →
      detect_default_branch env = (Except.ok b, [GitOp.symbolicRefHead])) ∧
    (∀ env text b, tier1NoAnswer env → env.remoteShow = CmdOut.run true text →
      headBranchOf text = some b →
      detect_default_branch env =
        (Except.ok b, [GitOp.symbolicRefHead, GitOp.remoteShowOrigin])) ∧
    (∀ env out, tier1NoAnswer env → tier2NoAnswer env →
      env.revParse "refs/remotes/origin/main" = CmdOut.run true out →
      detect_default_branch env = (Except.ok "main",
        [GitOp.symbolicRefHead, GitOp.remoteShowOrigin,
          GitOp.revParseVerify "refs/remotes/origin/main"])) ∧
    (∀ env o1 out, tier1NoAnswer env → tier2NoAnswer env →
      env.revParse "refs/remotes/origin/main" = CmdOut.run false o1 →
      env.revParse "refs/remotes/origin/master" = CmdOut.run true out →
      detect_default_branch env = (Except.ok "master",
        [GitOp.symbolicRefHead, GitOp.remoteShowOrigin,
          GitOp.revParseVerify "refs/remotes/origin/main",
          GitOp.revParseVerify "refs/remotes/origin/master"])) ∧
    (∀ env o1 o2 out, tier1NoAnswer env → tier2NoAnswer env →
      env.revParse "refs/remotes/origin/main" = CmdOut.run false o1 →
      env.revParse "refs/remotes/origin/master" = CmdOut.run false o2 →
      env.revParse "refs/remotes/origin/develop" = CmdOut.run true out →
      detect_default_branch env = (Except.ok "develop",
        [GitOp.symbolicRefHead, GitOp.remoteShowOrigin,
          GitOp.revParseVerify "refs/remotes/origin/main",
          GitOp.revParseVerify "refs/remotes/origin/master",
          GitOp.revParseVerify "refs/remotes/origin/develop"])) ∧
    (∀ env o1 o2 o3, tier1NoAnswer env → tier2NoAnswer env →
      env.revParse "refs/remotes/origin/main" = CmdOut.run false o1 →
      env.revParse "refs/remotes/origin/master" = CmdOut.run false o2 →
      env.revParse "refs/remotes/origin/develop" = CmdOut.run false o3 →
      detect_default_branch env =
        (Except.error "Could not detect default branch for the repository",
          [GitOp.symbolicRefHead, GitOp.remoteShowOrigin,
            GitOp.revParseVerify "refs/remotes/origin/main",
            GitOp.revParseVerify "refs/remotes/origin/master",
            GitOp.revParseVerify "refs/remotes/origin/develop"])) := by
  have emain : ("refs/remotes/origin/" ++ "main" : String) = "refs/remotes/origin/main" := by
    decide
  have emaster : ("refs/remotes/origin/" ++ "master" : String) =
      "refs/remotes/origin/master" := by decide
  have edevelop : ("refs/remotes/origin/" ++ "develop" : String) =
      "refs/remotes/origin/develop" := by decide
  refine ⟨?_, ?_, ?_, ?_, ?_, ?_⟩
  · intro env out b ho hstrip
    simp only [detect_default_branch, ho, hstrip, Bool.false_eq_true, if_false, if_true,
      ite_self]
  · intro env text b h1 ht hh
    rw [detect_after_tier1 h1]
    simp only [ht, hh, Bool.false_eq_true, if_false, if_true, ite_self]
  · intro env out h1 h2 hm
    rw [detect_after_tier2 h1 h2]
    simp [probeCandidates, emain, hm]
  · intro env o1 out h1 h2 hm hma
    rw [detect_after_tier2 h1 h2]
    simp [probeCandidates, emain, emaster, hm, hma]
  · intro env o1 o2 out h1 h2 hm hma hd
    rw [detect_after_tier2 h1 h2]
    simp [probeCandidates, emain, emaster, edevelop, hm, hma, hd]
  · intro env o1 o2 o3 h1 h2 hm hma hd
    rw [detect_after_tier2 h1 h2]
    simp [probeCandidates, emain, emaster, edevelop, hm, hma, hd]

/-- Witness for Claim C3: a mirror with no symbolic ref but remote-show
output still resolves via tier 2 (and tier 3 is never consulted). -/
theorem detect_default_branch_three_tiers_witness :
    detect_default_branch
        ⟨CmdOut.run false "", CmdOut.run true "  HEAD branch: main\nother",
          fun _ => CmdOut.ioErr⟩ =
      (Except.ok "main", [GitOp.symbolicRefHead, GitOp.remoteShowOrigin]) :=
  detect_default_branch_three_tiers.2.1
    ⟨CmdOut.run false "", CmdOut.run true "  HEAD branch: main\nother",
      fun _ => CmdOut.ioErr⟩
    "  HEAD branch: main\nother" "main" (Or.inl ⟨"", rfl⟩) rfl (by decide)

/-! ### Workspace lifecycle -/

/-- The clone-or-fetch step only touches the disk: the git oracles and the
worktree-add outcome are unchanged. -/
theorem step_git_eq {home : FsPath} {issue : IssueRef} {w : World} {res : Except String Unit}
    {w' : World} {ops1 : List GitOp}
    (hstep : (if bare_clone_path home issue ∈ w.disk then git_fetch w
      else bare_clone issue.clone_url (bare_clone_path home issue) w) = (res, w', ops1)) :
    w'.git = w.git ∧ w'.worktreeAddOk = w.worktreeAddOk := by
  by_cases hb : bare_clone_path home issue ∈ w.disk
  · rw [if_pos hb] at hstep
    unfold git_fetch at hstep
    split_ifs at hstep <;>
      (have hw := congrArg (fun t => t.2.1) hstep
       dsimp only at hw
       rw [← hw]
       exact ⟨rfl, rfl⟩)
  · rw [if_neg hb] at hstep
    unfold bare_clone at hstep
    dsimp only at hstep
    split_ifs at hstep <;>
      (have hw := congrArg (fun t => t.2.1) hstep
       dsimp only at hw
       rw [← hw]
       exact ⟨rfl, rfl⟩)

/-- Anatomy of a successful `open_or_create` run that did not hit the fast
path: the clone-or-fetch step succeeded, branch detection succeeded, the
worktree add succeeded and put the worktree path on disk, and the
operation trace is the concatenation of the four stages. -/
theorem open_or_create_ok_shape {home : FsPath} {issue : IssueRef} {w : World}
    {ws : Workspace} {w1 : World} {ops : List GitOp}
    (hmem : temp_path home issue ∉ w.disk)
    (h : open_or_create home issue w = (Except.ok ws, w1, ops)) :
    ∃ w' base ops1 ops2,
      (if bare_clone_path home issue ∈ w.disk then git_fetch w
       else bare_clone issue.clone_url (bare_clone_path home issue) w) =
        (Except.ok (), w', ops1) ∧
      detect_default_branch w'.git = (Except.ok base, ops2) ∧
      w'.worktreeAddOk = true ∧
      ws = ⟨temp_path home issue, issue, true⟩ ∧
      w1 = { w' with disk := temp_path home issue :: w'.disk } ∧
      ops = ops1 ++ ops2 ++
        [GitOp.revParseVerify ("refs/remotes/origin/" ++ issue.branch_name)] ++
        [GitOp.worktreeAdd (temp_path home issue)
          (!branch_exists_remote w'.git issue.branch_name)] := by
  unfold open_or_create at h
  rw [if_neg hmem] at h
  rcases hstep : (if bare_clone_path home issue ∈ w.disk then git_fetch w
    else bare_clone issue.clone_url (bare_clone_path home issue) w) with ⟨res1, w', ops1'⟩
  rw [hstep] at h
  rcases res1 with e | u
  · dsimp only at h
    simp at h
  · cases u
    dsimp only at h
    rcases hdet : detect_default_branch w'.git with ⟨res2, ops2'⟩
    rw [hdet] at h
    rcases res2 with e | base
    · dsimp only at h
      simp at h
    · dsimp only at h
      unfold create_worktree at h
      by_cases hwk : w'.worktreeAddOk
      · rw [if_pos hwk] at h
        dsimp only at h
        simp only [Prod.mk.injEq, Except.ok.injEq] at h
        obtain ⟨hws, hw1, hops⟩ := h
        exact ⟨w', base, ops1', ops2', rfl, hdet, hwk, hws.symm, hw1.symm, hops.symm⟩
      · rw [if_neg hwk] at h
        dsimp only at h
        simp at h

/-- Reaching an existing worktree path returns immediately: `created =
false`, the world untouched, no git command run. -/
theorem open_or_create_fast_path (home : FsPath) (issue : IssueRef) (w : World)
    (h : temp_path home issue ∈ w.disk) :
    open_or_create home issue w =
      (Except.ok ⟨temp_path home issue, issue, false⟩, w, []) := by
  unfold open_or_create
  rw [if_pos h]

/-- Claim C8: `branch_exists_remote` returns a plain boolean and never
propagates an error — a probe that cannot run (`ioErr`) or exits non-zero
counts as "does not exist" — and in that case a successful
`open_or_create` takes the create-new-branch path (its worktree-add
records a new branch). -/
theorem branch_exists_soft_fail :
    (∀ env branch, env.revParse ("refs/remotes/origin/" ++ branch) = CmdOut.ioErr →
      branch_exists_remote env branch = false) ∧
    (∀ env branch out,
      env.revParse ("refs/remotes/origin/" ++ branch) = CmdOut.run false out →
      branch_exists_remote env branch = false) ∧
    (∀ home issue w ws w1 ops, temp_path home issue ∉ w.disk →
      w.git.revParse ("refs/remotes/origin/" ++ issue.branch_name) = CmdOut.ioErr →
      open_or_create home issue w = (Except.ok ws, w1, ops) →
      GitOp.worktreeAdd (temp_path home issue) true ∈ ops) := by
  refine ⟨?_, ?_, ?_⟩
  · intro env branch hio
    unfold branch_exists_remote
    rw [hio]
  · intro env branch out hrun
    unfold branch_exists_remote
    rw [hrun]
  · intro home issue w ws w1 ops hmem hio h
    obtain ⟨w', base, ops1, ops2, hstep, hdet, hwk, hws, hw1, hops⟩ :=
      open_or_create_ok_shape hmem h
    have hgit : w'.git = w.git := (step_git_eq hstep).1
    have hbe : branch_exists_remote w'.git issue.branch_name = false := by
      rw [hgit]
      unfold branch_exists_remote
      rw [hio]
    rw [hops, hbe]
    simp

/-- Witness for Claim C8: an oracle whose probe cannot run yields
`false`. -/
theorem branch_exists_soft_fail_witness :
    branch_exists_remote
        ⟨CmdOut.run true "", CmdOut.run true "", fun _ => CmdOut.ioErr⟩ "issue-7" = false :=
  branch_exists_soft_fail.1
    ⟨CmdOut.run true "", CmdOut.run true "", fun _ => CmdOut.ioErr⟩ "issue-7" rfl

/-- Claim C1: when the worktree path already exists, `open_or_create`
returns immediately with `created = false` and performs no git operation;
otherwise a successful call returns `created = true` with the worktree
path, and an immediately repeated call for the same identity returns
`created = false` with an identical path, again with no git operation. -/
theorem open_or_create_idempotent :
    (∀ home issue w, temp_path home issue ∈ w.disk →
      open_or_create home issue w =
        (Except.ok ⟨temp_path home issue, issue, false⟩, w, [])) ∧
    (∀ home issue w ws w1 ops, temp_path home issue ∉ w.disk →
      open_or_create home issue w = (Except.ok ws, w1, ops) →
      ws.created = true ∧ ws.path = temp_path home issue ∧
      open_or_create home issue w1 =
        (Except.ok ⟨ws.path, issue, false⟩, w1, [])) := by
  refine ⟨open_or_create_fast_path, ?_⟩
  intro home issue w ws w1 ops hmem h
  obtain ⟨w', base, ops1, ops2, hstep, hdet, hwk, hws, hw1, hops⟩ :=
    open_or_create_ok_shape hmem h
  subst hws
  refine ⟨rfl, rfl, ?_⟩
  have hmem1 : temp_path home issue ∈ w1.disk := by
    rw [hw1]
    exact List.mem_cons_self _ _
  exact open_or_create_fast_path home issue w1 hmem1

/-- Witness for Claim C1: a full fresh run (clone, detect, probe, create)
followed by a reusing second call. -/
theorem open_or_create_idempotent_witness :
    (Workspace.created ⟨⟨true, ["h", "worktrees", "github", "o", "r", "linear-u"]⟩,
        IssueRef.Linear "o" "r" "u", true⟩ = true) ∧
    (Workspace.path ⟨⟨true, ["h", "worktrees", "github", "o", "r", "linear-u"]⟩,
        IssueRef.Linear "o" "r" "u", true⟩ =
      temp_path ⟨true, ["h"]⟩ (IssueRef.Linear "o" "r" "u")) ∧
    open_or_create ⟨true, ["h"]⟩ (IssueRef.Linear "o" "r" "u")
        ⟨[⟨true, ["h", "worktrees", "github", "o", "r", "linear-u"]⟩,
          ⟨true, ["h", "worktrees", "github", "o", "r"]⟩,
          ⟨true, ["h", "worktrees", "github", "o"]⟩], true, true, true,
          ⟨CmdOut.run true "refs/remotes/origin/main\n", CmdOut.run true "",
            fun _ => CmdOut.run true ""⟩, true⟩ =
      (Except.ok ⟨Workspace.path ⟨⟨true, ["h", "worktrees", "github", "o", "r", "linear-u"]⟩,
          IssueRef.Linear "o" "r" "u", true⟩, IssueRef.Linear "o" "r" "u", false⟩,
        ⟨[⟨true, ["h", "worktrees", "github", "o", "r", "linear-u"]⟩,
          ⟨true, ["h", "worktrees", "github", "o", "r"]⟩,
          ⟨true, ["h", "worktrees", "github", "o"]⟩], true, true, true,
          ⟨CmdOut.run true "refs/remotes/origin/main\n", CmdOut.run true "",
            fun _ => CmdOut.run true ""⟩, true⟩, []) :=
  open_or_create_idempotent.2 ⟨true, ["h"]⟩ (IssueRef.Linear "o" "r" "u")
    ⟨[], true, true, true,
      ⟨CmdOut.run true "refs/remotes/origin/main\n", CmdOut.run true "",
        fun _ => CmdOut.run true ""⟩, true⟩
    ⟨⟨true, ["h", "worktrees", "github", "o", "r", "linear-u"]⟩,
      IssueRef.Linear "o" "r" "u", true⟩
    ⟨[⟨true, ["h", "worktrees", "github", "o", "r", "linear-u"]⟩,
      ⟨true, ["h", "worktrees", "github", "o", "r"]⟩,
      ⟨true, ["h", "worktrees", "github", "o"]⟩], true, true, true,
      ⟨CmdOut.run true "refs/remotes/origin/main\n", CmdOut.run true "",
        fun _ => CmdOut.run true ""⟩, true⟩
    [GitOp.cloneBare, GitOp.configFetchRefspec, GitOp.fetchOrigin, GitOp.symbolicRefHead,
      GitOp.revParseVerify "refs/remotes/origin/linear-u",
      GitOp.worktreeAdd ⟨true, ["h", "worktrees", "github", "o", "r", "linear-u"]⟩ false]
    (by decide) (by rfl)

end Runner
